import Mathlib

/-!
Verification of the star_burger order-matching and geocoding core.

The Python source is embedded shallowly:
- Python dicts become insertion-ordered association lists (dictGet / dictPut).
- Python sets of product ids become duplicate-free lists used only through
  membership.
- The geocoding HTTP call is an oracle parameter of type String to FetchResult;
  the geodesic distance primitive (geopy) is an oracle parameter returning
  Option Rat, with none standing for the exception path.
- Floats are modelled as rationals; machine rounding is folded into the
  distance oracle, which the source treats as a black box.
- A raised-and-caught FetchCoordinatesError is modelled by the fetchError
  constructor; values that Python writes as None become Option.none.
-/

namespace StarBurger

/-- Lookup in an insertion-ordered association list, modelling Python dict
indexing and dict.get: returns the value of the first (hence unique) binding
of the key, or none. -/
def dictGet {κ α : Type} [DecidableEq κ] : List (κ × α) → κ → Option α
  | [], _ => none
  | p :: m, k => if p.1 = k then some p.2 else dictGet m k

/-- Python dict assignment d[k] = v on the association-list model: overwrites
the existing binding in place, otherwise appends at the end (Python dicts keep
insertion order). -/
def dictPut {κ α : Type} [DecidableEq κ] : List (κ × α) → κ → α → List (κ × α)
  | [], k, v => [(k, v)]
  | p :: m, k, v => if p.1 = k then (k, v) :: m else p :: dictPut m k v

/-- Python set.add on the duplicate-free-list model of a set. -/
def setAdd (s : List Nat) (x : Nat) : List Nat :=
  if x ∈ s then s else s ++ [x]

/-- Python expression s or d on strings: the empty string is falsy. -/
def pyOrElseStr (s d : String) : String :=
  if s = "" then d else s

/-!
## Geocode cache (src/backend/geocache/models.py and src/geocache)
-/

/-- The strip().lower() chain from GeocodedAddress.normalize, executed on the
character sequence of the string: whitespace is dropped from both ends, then
every character is lower-cased. -/
def pyStripLower (s : String) : String :=
  ⟨((s.data.dropWhile Char.isWhitespace).reverse.dropWhile
      Char.isWhitespace).reverse.map Char.toLower⟩

/-- GeocodedAddress.normalize from src/geocache/models.py:
(address or '').strip().lower(). -/
def normalize (address : Option String) : String :=
  pyStripLower (address.getD (""))

/-- Outcome of one call of fetch_coordinates (src/geocache/geocoder.py):
found lat lon models a successful parse, notFound models an empty
featureMember list (the function returns the pair None, None), and fetchError
models the raised FetchCoordinatesError on an HTTP failure. -/
inductive FetchResult : Type
  | found (lat lon : ℚ)
  | notFound
  | fetchError
deriving DecidableEq

/-- One row of the GeocodedAddress table of src/backend/geocache/models.py:
the unique address key and the nullable coordinate pair. -/
structure GeoEntry where
  address : String
  lat : Option ℚ
  lon : Option ℚ
deriving DecidableEq

/-- Observable outcome of GeocodedAddress.get_coordinates_batch: the returned
coordinates_map, the rows handed to bulk_create, and the addresses passed to
fetch_coordinates in order (one element per external network call). -/
structure BatchResult where
  coordinates_map : List (String × Option (ℚ × ℚ))
  new_geo_addresses : List GeoEntry
  fetch_calls : List String
deriving DecidableEq

/-- The per-row test of the first loop of get_coordinates_batch: a cache row
with either coordinate missing contributes none, otherwise the pair. -/
def entryCoords (e : GeoEntry) : Option (ℚ × ℚ) :=
  match e.lat, e.lon with
  | some la, some lo => some (la, lo)
  | _, _ => none

/-- One iteration of the missing-addresses loop of get_coordinates_batch:
on success the pair is recorded and the row is queued for bulk_create; on a
notFound result the null row is queued before the error is raised and caught,
so the map records none; on fetchError nothing is queued and the map records
none. Every branch performs exactly one network call. -/
def batchStep (fetch : String → FetchResult) (acc : BatchResult)
    (address : String) : BatchResult :=
  match fetch address with
  | .found la lo =>
      { coordinates_map := dictPut acc.coordinates_map address (some (la, lo))
        new_geo_addresses := acc.new_geo_addresses ++ [⟨address, some la, some lo⟩]
        fetch_calls := acc.fetch_calls ++ [address] }
  | .notFound =>
      { coordinates_map := dictPut acc.coordinates_map address none
        new_geo_addresses := acc.new_geo_addresses ++ [⟨address, none, none⟩]
        fetch_calls := acc.fetch_calls ++ [address] }
  | .fetchError =>
      { coordinates_map := dictPut acc.coordinates_map address none
        new_geo_addresses := acc.new_geo_addresses
        fetch_calls := acc.fetch_calls ++ [address] }

/-- GeocodedAddress.get_coordinates_batch from src/backend/geocache/models.py.
The cache table and the external geocoder are passed explicitly; addresses is
the iteration order of the Python input set. -/
def get_coordinates_batch (fetch : String → FetchResult) (cache : List GeoEntry)
    (addresses : List String) : BatchResult :=
  if addresses.isEmpty then ⟨[], [], []⟩
  else
    let existing := cache.filter (fun e => decide (e.address ∈ addresses))
    let map1 := existing.foldl (fun m e => dictPut m e.address (entryCoords e)) []
    let missing := addresses.filter (fun a => !(map1.any (fun p => decide (p.1 = a))))
    missing.foldl (batchStep fetch) ⟨map1, [], []⟩

/-!
## Menu index builder and restaurant matcher (src/foodcartapp/models.py)
-/

/-- A coordinate pair as produced by the geocoder. -/
abbrev Coord := ℚ × ℚ

/-- One row of RestaurantMenuItemQuerySet.available_menu_rows: the flat
(restaurant, available product) projection with restaurant metadata. -/
structure MenuRow where
  restaurant_id : Nat
  product_id : Nat
  restaurant_name : String
  restaurant_address : String
deriving DecidableEq

/-- The four dictionaries returned by Order._build_restorant_indexes. -/
structure RestIndexes where
  rest_products : List (Nat × List Nat)
  rest_names : List (Nat × String)
  rest_addresses : List (Nat × String)
  rest_coordinates : List (Nat × Option Coord)
deriving DecidableEq

/-- The loop body of Order._build_restorant_indexes: the product is added to
the set of the restaurant, and the name, address and coordinates bindings of
the restaurant are overwritten with the values of the current row. -/
def indexStep (address_map : List (String × Option Coord)) (idx : RestIndexes)
    (row : MenuRow) : RestIndexes :=
  let rest_id := row.restaurant_id
  let address := pyOrElseStr row.restaurant_address ("")
  { rest_products := dictPut idx.rest_products rest_id
      (setAdd ((dictGet idx.rest_products rest_id).getD []) row.product_id)
    rest_names := dictPut idx.rest_names rest_id row.restaurant_name
    rest_addresses := dictPut idx.rest_addresses rest_id address
    rest_coordinates := dictPut idx.rest_coordinates rest_id
      ((dictGet address_map address).join) }

/-- Order._build_restorant_indexes from src/foodcartapp/models.py. -/
def build_restorant_indexes (menu_rows : List MenuRow)
    (address_map : List (String × Option Coord)) : RestIndexes :=
  menu_rows.foldl (indexStep address_map) ⟨[], [], [], []⟩

/-- One candidate dictionary built by Order._build_rest_entry. The Python
value of the coordinates field is either a pair or the empty string; none
stands for the empty string. -/
structure RestEntry where
  id : Nat
  name : String
  address : String
  coordinates : Option Coord
  distance_km : Option ℚ
deriving DecidableEq

/-- Order._build_rest_entry from src/foodcartapp/models.py. The parameter gd
is the rounded geopy distance-in-km primitive; a none result models the
caught exception of the try block. -/
def build_rest_entry (gd : Coord → Coord → Option ℚ) (restaurant_id : Nat)
    (rest_names : List (Nat × String)) (rest_addresses : List (Nat × String))
    (rest_coordinates : List (Nat × Option Coord))
    (order_coordinates : Option Coord) : RestEntry :=
  let rest_latlon := (dictGet rest_coordinates restaurant_id).join
  let distance_km : Option ℚ :=
    match order_coordinates, rest_latlon with
    | some oc, some rl => gd oc rl
    | _, _ => none
  { id := restaurant_id
    name := (dictGet rest_names restaurant_id).getD ("—")
    address := pyOrElseStr ((dictGet rest_addresses restaurant_id).getD ("")) ("")
    coordinates := rest_latlon
    distance_km := distance_km }

/-- The second component of the Python sort key
(r.distance_km is None, r.distance_km or inf): both a missing distance and a
zero distance are falsy and become infinity. -/
def pyOrTop : Option ℚ → WithTop ℚ
  | none => ⊤
  | some d => if d = 0 then ⊤ else (d : WithTop ℚ)

/-- Comparison of two Python tuples under sorted: lexicographic on the pair. -/
def keyLe {α β : Type} [LinearOrder α] [LinearOrder β] (x y : α × β) : Bool :=
  decide (x.1 < y.1) || (decide (x.1 = y.1) && decide (x.2 ≤ y.2))

/-- The sort key of the fits.sort call of Order._attach_restaurants. -/
def fitsKey (r : RestEntry) : Bool × WithTop ℚ :=
  (r.distance_km.isNone, pyOrTop r.distance_km)

/-- The comparison realised by the fits.sort key. -/
def fitsLe (a b : RestEntry) : Bool :=
  keyLe (fitsKey a) (fitsKey b)

/-- Stable insertion of an element arriving after every element of the list:
it is placed behind every element that compares less-or-equal to it, which is
exactly where a stable sort such as the Python one keeps it. -/
def insertStable {α : Type} (le : α → α → Bool) (a : α) : List α → List α
  | [] => [a]
  | b :: l => if le b a then b :: insertStable le a l else a :: b :: l

/-- Stable sort modelling Python list.sort and sorted: elements are taken in
input order and each is inserted behind its equals. -/
def pySort {α : Type} (le : α → α → Bool) (l : List α) : List α :=
  l.foldl (fun acc a => insertStable le a acc) []

/-- The per-order aggregate built by Order._group_orders, restricted to the
fields that Order._attach_restaurants and the final sort read or write. -/
structure OrderAgg where
  order_id : Nat
  restaurant_id : Option Nat
  products : List Nat
  order_coordinates : Option Coord
  created_at : ℚ
  restaurants : List RestEntry
  has_restaurant : Bool
deriving DecidableEq

/-- Python truthiness of the nullable restaurant id read by the test
if chosen_id: both None and the integer zero are falsy. -/
def pyTruthyId : Option Nat → Bool
  | none => false
  | some n => decide (n ≠ 0)

/-- The body of the per-order loop of Order._attach_restaurants: an assigned
restaurant is echoed as the single candidate; otherwise every restaurant of
rest_products whose product set contains all required products becomes a
candidate, and the candidates are sorted by the distance key. -/
def attach_restaurants_one (gd : Coord → Coord → Option ℚ) (idx : RestIndexes)
    (order : OrderAgg) : OrderAgg :=
  let chosen_id := order.restaurant_id
  let required := order.products
  let order_coordinates := order.order_coordinates
  let restaurants :=
    if pyTruthyId chosen_id then
      [build_rest_entry gd (chosen_id.getD 0) idx.rest_names idx.rest_addresses
        idx.rest_coordinates order_coordinates]
    else
      pySort fitsLe
        ((idx.rest_products.filter
            (fun p => required.all (fun x => decide (x ∈ p.2)))).map
          (fun p => build_rest_entry gd p.1 idx.rest_names idx.rest_addresses
            idx.rest_coordinates order_coordinates))
  { order with restaurants := restaurants, has_restaurant := pyTruthyId chosen_id }

/-- Order._attach_restaurants applied to every aggregate of the orders map. -/
def attach_restaurants (gd : Coord → Coord → Option ℚ) (idx : RestIndexes)
    (orders : List OrderAgg) : List OrderAgg :=
  orders.map (attach_restaurants_one gd idx)

/-- The key of the final sorted call of Order.active_orders_with_restaurants:
(has_restaurant, minus created_at timestamp). -/
def reportKey (o : OrderAgg) : Bool × ℚ :=
  (o.has_restaurant, -o.created_at)

/-- The comparison realised by the final report sort key. -/
def reportLe (a b : OrderAgg) : Bool :=
  keyLe (reportKey a) (reportKey b)

/-- The final sorted call of Order.active_orders_with_restaurants, applied to
the attached order aggregates. -/
def active_report (gd : Coord → Coord → Option ℚ) (idx : RestIndexes)
    (orders : List OrderAgg) : List OrderAgg :=
  pySort reportLe (attach_restaurants gd idx orders)

/-!
## Lemmas about the association-list dictionary
-/

theorem dictGet_dictPut_self {κ α : Type} [DecidableEq κ] (m : List (κ × α))
    (k : κ) (v : α) : dictGet (dictPut m k v) k = some v := by
  induction m with
  | nil => simp [dictPut, dictGet]
  | cons p m ih =>
    by_cases h : p.1 = k
    · simp [dictPut, h, dictGet]
    · simp [dictPut, h, dictGet, ih]

theorem dictGet_dictPut_ne {κ α : Type} [DecidableEq κ] (m : List (κ × α))
    {k k' : κ} (v : α) (h : k ≠ k') :
    dictGet (dictPut m k v) k' = dictGet m k' := by
  induction m with
  | nil => simp [dictPut, dictGet, h]
  | cons p m ih =>
    by_cases hp : p.1 = k
    · simp [dictPut, hp, dictGet, h, hp ▸ h]
    · simp [dictPut, hp, dictGet, ih]

theorem dictPut_of_forall_ne {κ α : Type} [DecidableEq κ] {m : List (κ × α)}
    {k : κ} (v : α) (h : ∀ p ∈ m, p.1 ≠ k) :
    dictPut m k v = m ++ [(k, v)] := by
  induction m with
  | nil => simp [dictPut]
  | cons p m ih =>
    have hp : p.1 ≠ k := h p (by simp)
    simp only [dictPut, if_neg hp, List.cons_append, List.cons.injEq, true_and]
    exact ih (fun q hq => h q (by simp [hq]))

theorem dictGet_append {κ α : Type} [DecidableEq κ] (m₁ m₂ : List (κ × α))
    (k : κ) : dictGet (m₁ ++ m₂) k = (dictGet m₁ k).or (dictGet m₂ k) := by
  induction m₁ with
  | nil => simp [dictGet, Option.or]
  | cons p m ih =>
    by_cases h : p.1 = k
    · simp [dictGet, h, Option.or]
    · simp [dictGet, h, ih]

theorem dictGet_map_pair {ρ κ α : Type} [DecidableEq κ] (key : ρ → κ)
    (g : ρ → α) (l : List ρ) (k : κ) :
    dictGet (l.map (fun r => (key r, g r))) k
      = (l.find? (fun r => decide (key r = k))).map g := by
  induction l with
  | nil => simp [dictGet]
  | cons r l ih =>
    by_cases h : key r = k
    · simp [dictGet, List.find?, h]
    · simp [dictGet, List.find?, h, ih]

theorem dictGet_eq_none_of_forall_ne {κ α : Type} [DecidableEq κ]
    {m : List (κ × α)} {k : κ} (h : ∀ p ∈ m, p.1 ≠ k) :
    dictGet m k = none := by
  induction m with
  | nil => rfl
  | cons p m ih =>
    simp only [dictGet, if_neg (h p (by simp))]
    exact ih (fun q hq => h q (by simp [hq]))

theorem mem_of_dictGet_eq_some {κ α : Type} [DecidableEq κ]
    {m : List (κ × α)} {k : κ} {v : α} (h : dictGet m k = some v) :
    (k, v) ∈ m := by
  induction m with
  | nil => simp [dictGet] at h
  | cons p m ih =>
    by_cases hp : p.1 = k
    · simp only [dictGet, if_pos hp, Option.some.injEq] at h
      have hpv : p = (k, v) := by
        cases p
        simp_all
      rw [hpv]
      exact List.mem_cons_self _ _
    · simp only [dictGet, if_neg hp] at h
      exact List.mem_cons_of_mem _ (ih h)

theorem dictGet_eq_some_of_mem {κ α : Type} [DecidableEq κ]
    {m : List (κ × α)} {k : κ} {v : α}
    (hnd : (m.map Prod.fst).Nodup) (hm : (k, v) ∈ m) :
    dictGet m k = some v := by
  induction m with
  | nil => simp at hm
  | cons p m ih =>
    rcases List.mem_cons.mp hm with rfl | hm2
    · simp [dictGet]
    · have hp : p.1 ≠ k := by
        intro hk
        have : p.1 ∈ m.map Prod.fst := hk ▸ List.mem_map_of_mem Prod.fst hm2
        exact (List.nodup_cons.mp hnd).1 this
      simp only [dictGet, if_neg hp]
      exact ih (List.nodup_cons.mp hnd).2 hm2

theorem dictGet_foldl_dictPut {ρ κ α : Type} [DecidableEq κ] (key : ρ → κ)
    (g : ρ → α) (rows : List ρ) (init : List (κ × α)) (k : κ) :
    dictGet (rows.foldl (fun m r => dictPut m (key r) (g r)) init) k
      = ((rows.filter (fun r => decide (key r = k))).getLast?.map g).or
          (dictGet init k) := by
  induction rows using List.reverseRecOn with
  | nil => simp [Option.or]
  | append_singleton l r ih =>
    rw [List.foldl_append, List.foldl_cons, List.foldl_nil, List.filter_append]
    by_cases h : key r = k
    · rw [h, dictGet_dictPut_self]
      simp [h, Option.or]
    · rw [dictGet_dictPut_ne _ _ h, ih]
      simp [h]

theorem foldl_dictPut_eq_append {ρ κ α : Type} [DecidableEq κ] (key : ρ → κ)
    (g : ρ → α) (rows : List ρ) (init : List (κ × α))
    (hnd : (rows.map key).Nodup)
    (hdisj : ∀ r ∈ rows, ∀ p ∈ init, p.1 ≠ key r) :
    rows.foldl (fun m r => dictPut m (key r) (g r)) init
      = init ++ rows.map (fun r => (key r, g r)) := by
  induction rows generalizing init with
  | nil => simp
  | cons r rows ih =>
    rw [List.map_cons, List.nodup_cons] at hnd
    have hdisj2 : ∀ r2 ∈ rows, ∀ p ∈ init ++ [(key r, g r)], p.1 ≠ key r2 := by
      intro r2 hr2 p hp
      rcases List.mem_append.mp hp with hp1 | hp2
      · exact hdisj r2 (by simp [hr2]) p hp1
      · have hp2e : p = (key r, g r) := by simpa using hp2
        subst hp2e
        intro hk
        apply hnd.1
        have hkk : key r = key r2 := hk
        rw [hkk]
        exact List.mem_map_of_mem key hr2
    rw [List.foldl_cons,
      dictPut_of_forall_ne (g r) (fun p hp => hdisj r (by simp) p hp),
      ih (init ++ [(key r, g r)]) hnd.2 hdisj2]
    simp

/-!
## Structural description of the batch geocoder
-/

/-- The addresses of the batch that have no row in the cache table. -/
def missingOf (cache : List GeoEntry) (addresses : List String) : List String :=
  addresses.filter (fun a => !(cache.any (fun e => decide (e.address = a))))

/-- The value that one network call contributes to the coordinates map. -/
def fetchVal : FetchResult → Option (ℚ × ℚ)
  | .found la lo => some (la, lo)
  | .notFound => none
  | .fetchError => none

/-- The rows that one network call queues for bulk_create. -/
def fetchRows (address : String) : FetchResult → List GeoEntry
  | .found la lo => [⟨address, some la, some lo⟩]
  | .notFound => [⟨address, none, none⟩]
  | .fetchError => []

theorem list_any_map {α β : Type} (f : α → β) (l : List α) (p : β → Bool) :
    (l.map f).any p = l.any (fun x => p (f x)) := by
  induction l <;> simp_all

theorem list_any_filter {α : Type} (p q : α → Bool) (l : List α) :
    (l.filter p).any q = l.any (fun x => p x && q x) := by
  induction l with
  | nil => rfl
  | cons a l ih =>
    by_cases h : p a
    · simp [List.filter_cons, h, ih]
    · simp only [List.filter_cons, h, Bool.false_eq_true, if_false, ih,
        List.any_cons]
      simp [h]

theorem list_any_congr {α : Type} {p q : α → Bool} {l : List α}
    (h : ∀ x ∈ l, p x = q x) : l.any p = l.any q := by
  induction l with
  | nil => rfl
  | cons a l ih =>
    simp only [List.any_cons, h a (by simp), ih (fun x hx => h x (by simp [hx]))]

theorem foldl_batchStep_eq (fetch : String → FetchResult) (ms : List String)
    (acc : BatchResult) (hnd : ms.Nodup)
    (hdisj : ∀ a ∈ ms, ∀ p ∈ acc.coordinates_map, p.1 ≠ a) :
    ms.foldl (batchStep fetch) acc =
      { coordinates_map :=
          acc.coordinates_map ++ ms.map (fun a => (a, fetchVal (fetch a)))
        new_geo_addresses :=
          acc.new_geo_addresses ++ ms.flatMap (fun a => fetchRows a (fetch a))
        fetch_calls := acc.fetch_calls ++ ms } := by
  induction ms generalizing acc with
  | nil => simp
  | cons a ms ih =>
    rw [List.nodup_cons] at hnd
    have hput : ∀ v : Option (ℚ × ℚ),
        dictPut acc.coordinates_map a v = acc.coordinates_map ++ [(a, v)] :=
      fun v => dictPut_of_forall_ne v (fun p hp => hdisj a (by simp) p hp)
    have hstep : batchStep fetch acc a =
        { coordinates_map := acc.coordinates_map ++ [(a, fetchVal (fetch a))]
          new_geo_addresses := acc.new_geo_addresses ++ fetchRows a (fetch a)
          fetch_calls := acc.fetch_calls ++ [a] } := by
      cases hfa : fetch a <;> simp [batchStep, hfa, fetchVal, fetchRows, hput]
    rw [List.foldl_cons, hstep, ih _ hnd.2]
    · simp
    · intro b hb p hp
      rcases List.mem_append.mp hp with hp1 | hp2
      · exact hdisj b (by simp [hb]) p hp1
      · have hpe : p = (a, fetchVal (fetch a)) := by simpa using hp2
        subst hpe
        intro hk
        exact hnd.1 ((show a = b from hk) ▸ hb)

theorem get_coordinates_batch_eq (fetch : String → FetchResult)
    (cache : List GeoEntry) (addresses : List String)
    (hnd : addresses.Nodup) (hc : (cache.map GeoEntry.address).Nodup) :
    get_coordinates_batch fetch cache addresses =
      { coordinates_map :=
          (cache.filter (fun e => decide (e.address ∈ addresses))).map
              (fun e => (e.address, entryCoords e))
            ++ (missingOf cache addresses).map (fun a => (a, fetchVal (fetch a)))
        new_geo_addresses :=
          (missingOf cache addresses).flatMap (fun a => fetchRows a (fetch a))
        fetch_calls := missingOf cache addresses } := by
  cases haddr : addresses with
  | nil =>
    have hfe : cache.filter (fun e => decide (e.address ∈ ([] : List String))) = [] := by
      simp
    simp [get_coordinates_batch, missingOf, hfe]
  | cons a0 as0 =>
    rw [← haddr]
    have hne : addresses.isEmpty = false := by simp [haddr]
    have hexnd : ((cache.filter
        (fun e => decide (e.address ∈ addresses))).map GeoEntry.address).Nodup :=
      ((List.filter_sublist cache).map GeoEntry.address).nodup hc
    have hmap1 : (cache.filter (fun e => decide (e.address ∈ addresses))).foldl
          (fun m e => dictPut m e.address (entryCoords e)) []
        = (cache.filter (fun e => decide (e.address ∈ addresses))).map
            (fun e => (e.address, entryCoords e)) := by
      have := foldl_dictPut_eq_append GeoEntry.address entryCoords
        (cache.filter (fun e => decide (e.address ∈ addresses))) [] hexnd
        (by intro r hr p hp; simp at hp)
      simpa using this
    have hanyeq : ∀ a ∈ addresses,
        ((cache.filter (fun e => decide (e.address ∈ addresses))).map
            (fun e => (e.address, entryCoords e))).any
            (fun p => decide (p.1 = a))
          = cache.any (fun e => decide (e.address = a)) := by
      intro a ha
      rw [list_any_map, list_any_filter]
      apply list_any_congr
      intro e he
      by_cases hea : e.address = a
      · simp [hea, ha]
      · simp [hea]
    have hmiss : addresses.filter
          (fun a => !(((cache.filter (fun e => decide (e.address ∈ addresses))).map
              (fun e => (e.address, entryCoords e))).any
              (fun p => decide (p.1 = a))))
        = missingOf cache addresses := by
      apply List.filter_congr
      intro a ha
      rw [hanyeq a ha]
    have hdisj : ∀ a ∈ missingOf cache addresses,
        ∀ p ∈ (cache.filter (fun e => decide (e.address ∈ addresses))).map
            (fun e => (e.address, entryCoords e)), p.1 ≠ a := by
      intro a ha p hp
      rcases List.mem_map.mp hp with ⟨e, he, rfl⟩
      intro hk
      have hmem := (List.mem_filter.mp ha).2
      rw [Bool.not_eq_eq_eq_not, Bool.not_true, ← Bool.not_eq_true] at hmem
      apply hmem
      rw [List.any_eq_true]
      refine ⟨e, (List.mem_filter.mp he).1, ?_⟩
      simp only [decide_eq_true_eq]
      exact hk
    have hdef : get_coordinates_batch fetch cache addresses =
        (addresses.filter (fun a =>
            !(((cache.filter (fun e => decide (e.address ∈ addresses))).foldl
                (fun m e => dictPut m e.address (entryCoords e)) []).any
                (fun p => decide (p.1 = a))))).foldl (batchStep fetch)
          ⟨(cache.filter (fun e => decide (e.address ∈ addresses))).foldl
              (fun m e => dictPut m e.address (entryCoords e)) [], [], []⟩ := by
      unfold get_coordinates_batch
      rw [if_neg (by simp [hne])]
    have hmnd : (missingOf cache addresses).Nodup := List.Nodup.filter _ hnd
    rw [hdef, hmap1, hmiss]
    rw [foldl_batchStep_eq fetch (missingOf cache addresses) _ hmnd hdisj]
    simp

/-!
## Lemmas about the stable sort
-/

theorem mem_insertStable {α : Type} (le : α → α → Bool) (a x : α)
    (l : List α) : x ∈ insertStable le a l ↔ x = a ∨ x ∈ l := by
  induction l with
  | nil => simp [insertStable]
  | cons b l ih =>
    by_cases h : le b a
    · simp only [insertStable, if_pos h, List.mem_cons, ih]
      tauto
    · simp [insertStable, if_neg h]

theorem insertStable_perm {α : Type} (le : α → α → Bool) (a : α)
    (l : List α) : (insertStable le a l).Perm (a :: l) := by
  induction l with
  | nil => simp [insertStable]
  | cons b l ih =>
    by_cases h : le b a
    · rw [insertStable, if_pos h]
      exact (ih.cons b).trans (List.Perm.swap a b l)
    · rw [insertStable, if_neg h]

theorem pySort_perm_aux {α : Type} (le : α → α → Bool) (l acc : List α) :
    (l.foldl (fun acc a => insertStable le a acc) acc).Perm (l ++ acc) := by
  induction l generalizing acc with
  | nil => simp
  | cons a l ih =>
    rw [List.foldl_cons]
    refine (ih (insertStable le a acc)).trans ?_
    refine (List.Perm.append_left l (insertStable_perm le a acc)).trans ?_
    exact List.perm_middle

theorem pySort_perm {α : Type} (le : α → α → Bool) (l : List α) :
    (pySort le l).Perm l := by
  simpa using pySort_perm_aux le l []

theorem mem_pySort {α : Type} (le : α → α → Bool) (l : List α) (x : α) :
    x ∈ pySort le l ↔ x ∈ l :=
  (pySort_perm le l).mem_iff

theorem pairwise_insertStable {α : Type} {le : α → α → Bool}
    (htot : ∀ a b, le a b = true ∨ le b a = true)
    (htrans : ∀ a b c, le a b = true → le b c = true → le a c = true)
    (a : α) {l : List α} (h : l.Pairwise (fun x y => le x y = true)) :
    (insertStable le a l).Pairwise (fun x y => le x y = true) := by
  induction l with
  | nil => simp [insertStable]
  | cons b l ih =>
    rcases List.pairwise_cons.mp h with ⟨hb, hl⟩
    by_cases hba : le b a = true
    · rw [insertStable, if_pos hba]
      refine List.pairwise_cons.mpr ⟨?_, ih hl⟩
      intro x hx
      rcases (mem_insertStable le a x l).mp hx with rfl | hxl
      · exact hba
      · exact hb x hxl
    · rw [insertStable, if_neg hba]
      have hab : le a b = true := (htot a b).resolve_right hba
      refine List.pairwise_cons.mpr ⟨?_, h⟩
      intro x hx
      rcases List.mem_cons.mp hx with rfl | hxl
      · exact hab
      · exact htrans a b x hab (hb x hxl)

theorem pairwise_pySort_aux {α : Type} {le : α → α → Bool}
    (htot : ∀ a b, le a b = true ∨ le b a = true)
    (htrans : ∀ a b c, le a b = true → le b c = true → le a c = true)
    (l : List α) :
    ∀ acc, acc.Pairwise (fun x y => le x y = true) →
      (l.foldl (fun acc a => insertStable le a acc) acc).Pairwise
        (fun x y => le x y = true) := by
  induction l with
  | nil => exact fun acc hacc => hacc
  | cons a l ih =>
    intro acc hacc
    rw [List.foldl_cons]
    exact ih _ (pairwise_insertStable htot htrans a hacc)

theorem pairwise_pySort {α : Type} {le : α → α → Bool}
    (htot : ∀ a b, le a b = true ∨ le b a = true)
    (htrans : ∀ a b c, le a b = true → le b c = true → le a c = true)
    (l : List α) :
    (pySort le l).Pairwise (fun x y => le x y = true) :=
  pairwise_pySort_aux htot htrans l [] List.Pairwise.nil

theorem keyLe_total {α β : Type} [LinearOrder α] [LinearOrder β]
    (x y : α × β) : keyLe x y = true ∨ keyLe y x = true := by
  simp only [keyLe, Bool.or_eq_true, Bool.and_eq_true, decide_eq_true_eq]
  rcases lt_trichotomy x.1 y.1 with h | h | h
  · exact Or.inl (Or.inl h)
  · rcases le_total x.2 y.2 with h2 | h2
    · exact Or.inl (Or.inr ⟨h, h2⟩)
    · exact Or.inr (Or.inr ⟨h.symm, h2⟩)
  · exact Or.inr (Or.inl h)

theorem keyLe_trans {α β : Type} [LinearOrder α] [LinearOrder β]
    (x y z : α × β) (h₁ : keyLe x y = true) (h₂ : keyLe y z = true) :
    keyLe x z = true := by
  simp only [keyLe, Bool.or_eq_true, Bool.and_eq_true, decide_eq_true_eq] at h₁ h₂ ⊢
  rcases h₁ with h₁ | ⟨e₁, l₁⟩
  · rcases h₂ with h₂ | ⟨e₂, l₂⟩
    · exact Or.inl (h₁.trans h₂)
    · exact Or.inl (e₂ ▸ h₁)
  · rcases h₂ with h₂ | ⟨e₂, l₂⟩
    · exact Or.inl (e₁ ▸ h₂)
    · exact Or.inr ⟨e₁.trans e₂, l₁.trans l₂⟩

/-!
## Lemmas about the menu index builder and the matcher
-/

theorem foldl_indexStep_names (am : List (String × Option Coord))
    (rows : List MenuRow) (idx : RestIndexes) :
    (rows.foldl (indexStep am) idx).rest_names =
      rows.foldl
        (fun m row => dictPut m row.restaurant_id row.restaurant_name)
        idx.rest_names := by
  induction rows generalizing idx with
  | nil => rfl
  | cons r rows ih =>
    rw [List.foldl_cons, List.foldl_cons, ih]
    rfl

theorem foldl_indexStep_addresses (am : List (String × Option Coord))
    (rows : List MenuRow) (idx : RestIndexes) :
    (rows.foldl (indexStep am) idx).rest_addresses =
      rows.foldl
        (fun m row => dictPut m row.restaurant_id
          (pyOrElseStr row.restaurant_address ("")))
        idx.rest_addresses := by
  induction rows generalizing idx with
  | nil => rfl
  | cons r rows ih =>
    rw [List.foldl_cons, List.foldl_cons, ih]
    rfl

theorem foldl_indexStep_coordinates (am : List (String × Option Coord))
    (rows : List MenuRow) (idx : RestIndexes) :
    (rows.foldl (indexStep am) idx).rest_coordinates =
      rows.foldl
        (fun m row => dictPut m row.restaurant_id
          ((dictGet am (pyOrElseStr row.restaurant_address (""))).join))
        idx.rest_coordinates := by
  induction rows generalizing idx with
  | nil => rfl
  | cons r rows ih =>
    rw [List.foldl_cons, List.foldl_cons, ih]
    rfl

theorem build_names_get (rows : List MenuRow)
    (am : List (String × Option Coord)) (rid : Nat) :
    dictGet (build_restorant_indexes rows am).rest_names rid =
      ((rows.filter (fun r => decide (r.restaurant_id = rid))).getLast?.map
        MenuRow.restaurant_name) := by
  rw [build_restorant_indexes, foldl_indexStep_names,
    dictGet_foldl_dictPut MenuRow.restaurant_id MenuRow.restaurant_name rows _ rid]
  simp [dictGet, Option.or_none]

theorem build_addresses_get (rows : List MenuRow)
    (am : List (String × Option Coord)) (rid : Nat) :
    dictGet (build_restorant_indexes rows am).rest_addresses rid =
      ((rows.filter (fun r => decide (r.restaurant_id = rid))).getLast?.map
        (fun r => pyOrElseStr r.restaurant_address (""))) := by
  rw [build_restorant_indexes, foldl_indexStep_addresses,
    dictGet_foldl_dictPut MenuRow.restaurant_id
      (fun r => pyOrElseStr r.restaurant_address ("")) rows _ rid]
  simp [dictGet, Option.or_none]

theorem build_coordinates_get (rows : List MenuRow)
    (am : List (String × Option Coord)) (rid : Nat) :
    dictGet (build_restorant_indexes rows am).rest_coordinates rid =
      ((rows.filter (fun r => decide (r.restaurant_id = rid))).getLast?.map
        (fun r => (dictGet am (pyOrElseStr r.restaurant_address (""))).join)) := by
  rw [build_restorant_indexes, foldl_indexStep_coordinates,
    dictGet_foldl_dictPut MenuRow.restaurant_id
      (fun r => (dictGet am (pyOrElseStr r.restaurant_address (""))).join) rows _ rid]
  simp [dictGet, Option.or_none]

theorem attach_unassigned (gd : Coord → Coord → Option ℚ) (idx : RestIndexes)
    (order : OrderAgg) (h : order.restaurant_id = none) :
    (attach_restaurants_one gd idx order).restaurants =
      pySort fitsLe
        ((idx.rest_products.filter
            (fun p => order.products.all (fun x => decide (x ∈ p.2)))).map
          (fun p => build_rest_entry gd p.1 idx.rest_names idx.rest_addresses
            idx.rest_coordinates order.order_coordinates)) := by
  simp [attach_restaurants_one, h, pyTruthyId]

theorem attach_assigned (gd : Coord → Coord → Option ℚ) (idx : RestIndexes)
    (order : OrderAgg) (rid : Nat) (h : order.restaurant_id = some rid)
    (hpos : rid ≠ 0) :
    (attach_restaurants_one gd idx order).restaurants =
      [build_rest_entry gd rid idx.rest_names idx.rest_addresses
        idx.rest_coordinates order.order_coordinates] := by
  simp [attach_restaurants_one, h, pyTruthyId, hpos]

theorem build_rest_entry_id (gd : Coord → Coord → Option ℚ) (rid : Nat)
    (ns : List (Nat × String)) (ads : List (Nat × String))
    (cs : List (Nat × Option Coord)) (oc : Option Coord) :
    (build_rest_entry gd rid ns ads cs oc).id = rid :=
  rfl

/-!
## Claim C1
-/

/-- C1: for an order aggregate whose restaurant_id is absent, a restaurant id
appears among the candidates produced by Order._attach_restaurants exactly
when the menu index binds it to a product set containing every required
product of the order; in particular an order with an empty required set gets
every restaurant of the index as a candidate. -/
theorem claim1_unassigned_candidates_iff (gd : Coord → Coord → Option ℚ)
    (idx : RestIndexes) (order : OrderAgg)
    (h : order.restaurant_id = none)
    (hkeys : (idx.rest_products.map Prod.fst).Nodup) :
    (∀ rid : Nat,
        (∃ e ∈ (attach_restaurants_one gd idx order).restaurants, e.id = rid)
          ↔ ∃ ps, dictGet idx.rest_products rid = some ps
              ∧ ∀ x ∈ order.products, x ∈ ps)
      ∧ (order.products = [] →
          ∀ p ∈ idx.rest_products,
            ∃ e ∈ (attach_restaurants_one gd idx order).restaurants,
              e.id = p.1) := by
  have hmain : ∀ rid : Nat,
      (∃ e ∈ (attach_restaurants_one gd idx order).restaurants, e.id = rid)
        ↔ ∃ ps, dictGet idx.rest_products rid = some ps
            ∧ ∀ x ∈ order.products, x ∈ ps := by
    intro rid
    rw [attach_unassigned gd idx order h]
    constructor
    · rintro ⟨e, he, hid⟩
      rw [mem_pySort] at he
      rcases List.mem_map.mp he with ⟨p, hp, rfl⟩
      rcases List.mem_filter.mp hp with ⟨hpmem, hpall⟩
      rw [build_rest_entry_id] at hid
      refine ⟨p.2, ?_, ?_⟩
      · rw [← hid]
        exact dictGet_eq_some_of_mem hkeys hpmem
      · intro x hx
        have hxx := List.all_eq_true.mp hpall x hx
        simpa using hxx
    · rintro ⟨ps, hget, hall⟩
      refine ⟨build_rest_entry gd rid idx.rest_names idx.rest_addresses
        idx.rest_coordinates order.order_coordinates, ?_, rfl⟩
      rw [mem_pySort]
      refine List.mem_map.mpr
        ⟨(rid, ps), List.mem_filter.mpr ⟨mem_of_dictGet_eq_some hget, ?_⟩, rfl⟩
      rw [List.all_eq_true]
      intro x hx
      simp only [decide_eq_true_eq]
      exact hall x hx
  refine ⟨hmain, ?_⟩
  intro hempty p hp
  refine (hmain p.1).mpr ⟨p.2, dictGet_eq_some_of_mem hkeys hp, ?_⟩
  rw [hempty]
  intro x hx
  cases hx

/-- Shared trivial distance oracle for concrete examples. -/
def gdNone : Coord → Coord → Option ℚ := fun _ _ => none

/-- Concrete menu index: restaurant 1 stocks products 10 and 11, restaurant 2
stocks product 10 only, restaurant 3 stocks 10 and 11. -/
def idxW : RestIndexes :=
  { rest_products := [(1, [10, 11]), (2, [10]), (3, [10, 11])]
    rest_names := [(1, "R1"), (2, "R2"), (3, "R3")]
    rest_addresses := [(1, "a1"), (2, "a2"), (3, "a3")]
    rest_coordinates := [(1, none), (2, none), (3, none)] }

/-- Concrete unassigned order requiring products 10 and 11. -/
def orderW1 : OrderAgg :=
  { order_id := 1, restaurant_id := none, products := [10, 11]
    order_coordinates := none, created_at := 0, restaurants := []
    has_restaurant := false }

theorem claim1_unassigned_candidates_iff_witness :
    orderW1.restaurant_id = none
      ∧ (idxW.rest_products.map Prod.fst).Nodup
      ∧ ((∃ e ∈ (attach_restaurants_one gdNone idxW orderW1).restaurants,
            e.id = 1)
          ↔ ∃ ps, dictGet idxW.rest_products 1 = some ps
              ∧ ∀ x ∈ orderW1.products, x ∈ ps) :=
  ⟨rfl, by decide,
    (claim1_unassigned_candidates_iff gdNone idxW orderW1 rfl (by decide)).1 1⟩

/-!
## Claim C2
-/

/-- C2: for an order aggregate with a present (nonzero database key)
restaurant_id, Order._attach_restaurants returns exactly one candidate,
carrying that restaurant id, with no hypothesis on whether the restaurant
covers the required products. -/
theorem claim2_assigned_is_sole_candidate (gd : Coord → Coord → Option ℚ)
    (idx : RestIndexes) (order : OrderAgg) (rid : Nat)
    (h : order.restaurant_id = some rid) (hpos : rid ≠ 0) :
    (attach_restaurants_one gd idx order).restaurants.map RestEntry.id
      = [rid] := by
  rw [attach_assigned gd idx order rid h hpos]
  simp [build_rest_entry_id]

/-- Concrete order assigned to restaurant 2 while requiring products 10 and
11, of which restaurant 2 stocks only product 10. -/
def orderW2 : OrderAgg :=
  { order_id := 2, restaurant_id := some 2, products := [10, 11]
    order_coordinates := none, created_at := 0, restaurants := []
    has_restaurant := false }

theorem claim2_assigned_is_sole_candidate_witness :
    orderW2.restaurant_id = some 2
      ∧ dictGet idxW.rest_products 2 = some [10]
      ∧ ¬ (∀ x ∈ orderW2.products, x ∈ ([10] : List Nat))
      ∧ (attach_restaurants_one gdNone idxW orderW2).restaurants.map
          RestEntry.id = [2] :=
  ⟨rfl, by decide, by decide,
    claim2_assigned_is_sole_candidate gdNone idxW orderW2 2 rfl (by decide)⟩

/-!
## Claim C3
-/

/-- Distance oracle for the failing input: the order sits at the location of
restaurant 1, so their distance rounds to zero kilometres, while restaurant 2
is three kilometres away. -/
def gdC3 : Coord → Coord → Option ℚ :=
  fun _ rl => if rl = ((1 : ℚ), (1 : ℚ)) then some 0 else some 3

/-- Menu index for the failing input: both restaurants stock product 10. -/
def idxC3 : RestIndexes :=
  { rest_products := [(1, [10]), (2, [10])]
    rest_names := [(1, "R1"), (2, "R2")]
    rest_addresses := [(1, "a1"), (2, "a2")]
    rest_coordinates := [(1, some (1, 1)), (2, some (2, 2))] }

/-- Unassigned order requiring product 10, located at the coordinates of
restaurant 1. -/
def orderC3 : OrderAgg :=
  { order_id := 3, restaurant_id := none, products := [10]
    order_coordinates := some (1, 1), created_at := 0, restaurants := []
    has_restaurant := false }

/-- C3, behaviour of the code at the failing input: with candidate distances
0 km (restaurant 1) and 3 km (restaurant 2), the sort key maps the zero
distance to infinity (a falsy float in the expression distance_km or inf), so
the candidates come out as restaurant 2 then restaurant 1 instead of
ascending by distance. -/
theorem claim3_zero_distance_sorts_last :
    (attach_restaurants_one gdC3 idxC3 orderC3).restaurants.map
        (fun e => (e.id, e.distance_km)) = [(2, some 3), (1, some 0)] := by
  decide

/-!
## Claim C4
-/

/-- C4: the final report is pairwise ordered by the key
(has_restaurant, creation time descending): any earlier entry either lacks an
assignment while the later one has one, or both share the assignment flag and
the earlier entry was created no earlier than the later one; moreover the
report is a permutation of the attached aggregates. -/
theorem claim4_report_ordering (gd : Coord → Coord → Option ℚ)
    (idx : RestIndexes) (orders : List OrderAgg) :
    (active_report gd idx orders).Pairwise (fun a b =>
        (a.has_restaurant = false ∧ b.has_restaurant = true)
          ∨ (a.has_restaurant = b.has_restaurant ∧ b.created_at ≤ a.created_at))
      ∧ (active_report gd idx orders).Perm
          (attach_restaurants gd idx orders) := by
  constructor
  · have hp := @pairwise_pySort OrderAgg reportLe
      (fun a b => keyLe_total (reportKey a) (reportKey b))
      (fun a b c => keyLe_trans (reportKey a) (reportKey b) (reportKey c))
      (attach_restaurants gd idx orders)
    refine hp.imp ?_
    intro a b hab
    simp only [reportLe, keyLe, reportKey, Bool.or_eq_true, Bool.and_eq_true,
      decide_eq_true_eq] at hab
    rcases hab with hlt | ⟨heq, hle⟩
    · exact Or.inl (Bool.lt_iff.mp hlt)
    · exact Or.inr ⟨heq, neg_le_neg_iff.mp hle⟩
  · exact pySort_perm _ _

/-!
## Claim C9
-/

/-- C9, counterexample: two menu facts for restaurant 1 carrying different
names; the index records the name of the second (last) fact, not the first. -/
theorem claim9_first_seen_cx :
    dictGet (build_restorant_indexes
        [⟨1, 10, "first", "addr1"⟩, ⟨1, 11, "second", "addr2"⟩]
        []).rest_names 1 = some ("second")
      ∧ dictGet (build_restorant_indexes
        [⟨1, 10, "first", "addr1"⟩, ⟨1, 11, "second", "addr2"⟩]
        []).rest_names 1 ≠ some ("first") := by
  constructor
  · decide
  · decide

/-- C9, amended: the name and address that Order._build_restorant_indexes
records for a restaurant id are the ones carried by the LAST menu fact seen
for that id (each row assignment overwrites the previous binding). -/
theorem claim9_last_seen_wins (rows : List MenuRow)
    (am : List (String × Option Coord)) (rid : Nat) :
    dictGet (build_restorant_indexes rows am).rest_names rid =
        ((rows.filter (fun r => decide (r.restaurant_id = rid))).getLast?.map
          MenuRow.restaurant_name)
      ∧ dictGet (build_restorant_indexes rows am).rest_addresses rid =
        ((rows.filter (fun r => decide (r.restaurant_id = rid))).getLast?.map
          (fun r => pyOrElseStr r.restaurant_address (""))) :=
  ⟨build_names_get rows am rid, build_addresses_get rows am rid⟩

/-!
## Claim C10
-/

/-- C10: an order assigned to a restaurant that no available menu fact
mentions still produces exactly one candidate, with the placeholder name, an
empty address, empty coordinates and an absent distance. -/
theorem claim10_assigned_missing_restaurant (gd : Coord → Coord → Option ℚ)
    (rows : List MenuRow) (am : List (String × Option Coord))
    (order : OrderAgg) (rid : Nat)
    (h : order.restaurant_id = some rid) (hpos : rid ≠ 0)
    (habsent : ∀ row ∈ rows, row.restaurant_id ≠ rid) :
    (attach_restaurants_one gd (build_restorant_indexes rows am) order).restaurants
      = [{ id := rid, name := "—", address := "", coordinates := none,
            distance_km := none }] := by
  rw [attach_assigned gd _ order rid h hpos]
  have hfilter : rows.filter (fun r => decide (r.restaurant_id = rid)) = [] := by
    rw [List.filter_eq_nil_iff]
    intro r hr
    simp [habsent r hr]
  have hn := build_names_get rows am rid
  have ha := build_addresses_get rows am rid
  have hc := build_coordinates_get rows am rid
  rw [hfilter] at hn ha hc
  simp only [List.getLast?_nil, Option.map_none] at hn ha hc
  cases hoc : order.order_coordinates <;>
    simp [build_rest_entry, hn, ha, hc, pyOrElseStr, hoc]

/-- Concrete order assigned to restaurant 9, which no menu fact mentions. -/
def orderW10 : OrderAgg :=
  { order_id := 4, restaurant_id := some 9, products := [10]
    order_coordinates := none, created_at := 0, restaurants := []
    has_restaurant := false }

/-- Concrete menu facts mentioning only restaurant 1. -/
def rowsW10 : List MenuRow :=
  [⟨1, 10, "R1", "a1"⟩]

theorem claim10_assigned_missing_restaurant_witness :
    orderW10.restaurant_id = some 9
      ∧ (∀ row ∈ rowsW10, row.restaurant_id ≠ 9)
      ∧ (attach_restaurants_one gdNone
            (build_restorant_indexes rowsW10 []) orderW10).restaurants
          = [{ id := 9, name := "—", address := "", coordinates := none,
                distance_km := none }] :=
  ⟨rfl, by decide,
    claim10_assigned_missing_restaurant gdNone rowsW10 [] orderW10 9 rfl
      (by decide) (by decide)⟩

/-!
## Derived facts about the batch geocoder, shared by the cache claims
-/

theorem map_fst_pair {ρ κ α : Type} (key : ρ → κ) (g : ρ → α) (l : List ρ) :
    (l.map (fun r => (key r, g r))).map Prod.fst = l.map key := by
  induction l <;> simp_all

theorem batch_map_eq (fetch : String → FetchResult) (cache : List GeoEntry)
    (addresses : List String) (hnd : addresses.Nodup)
    (hc : (cache.map GeoEntry.address).Nodup) :
    (get_coordinates_batch fetch cache addresses).coordinates_map =
      (cache.filter (fun e => decide (e.address ∈ addresses))).map
          (fun e => (e.address, entryCoords e))
        ++ (missingOf cache addresses).map (fun a => (a, fetchVal (fetch a))) := by
  rw [get_coordinates_batch_eq fetch cache addresses hnd hc]

theorem batch_rows_eq (fetch : String → FetchResult) (cache : List GeoEntry)
    (addresses : List String) (hnd : addresses.Nodup)
    (hc : (cache.map GeoEntry.address).Nodup) :
    (get_coordinates_batch fetch cache addresses).new_geo_addresses =
      (missingOf cache addresses).flatMap (fun a => fetchRows a (fetch a)) := by
  rw [get_coordinates_batch_eq fetch cache addresses hnd hc]

theorem batch_calls_eq (fetch : String → FetchResult) (cache : List GeoEntry)
    (addresses : List String) (hnd : addresses.Nodup)
    (hc : (cache.map GeoEntry.address).Nodup) :
    (get_coordinates_batch fetch cache addresses).fetch_calls =
      missingOf cache addresses := by
  rw [get_coordinates_batch_eq fetch cache addresses hnd hc]

theorem batch_keys_perm (fetch : String → FetchResult) (cache : List GeoEntry)
    (addresses : List String) (hnd : addresses.Nodup)
    (hc : (cache.map GeoEntry.address).Nodup) :
    ((get_coordinates_batch fetch cache addresses).coordinates_map.map
      Prod.fst).Perm addresses := by
  rw [batch_map_eq fetch cache addresses hnd hc, List.map_append,
    map_fst_pair, map_fst_pair]
  have hid : (missingOf cache addresses).map (fun a => a)
      = missingOf cache addresses := by
    simp
  rw [hid]
  have hperm1 : ((cache.filter
        (fun e => decide (e.address ∈ addresses))).map GeoEntry.address).Perm
      (addresses.filter (fun a => cache.any (fun e => decide (e.address = a)))) := by
    apply List.perm_of_nodup_nodup_toFinset_eq
    · exact ((List.filter_sublist cache).map GeoEntry.address).nodup hc
    · exact hnd.filter _
    · ext a
      simp only [List.mem_toFinset, List.mem_map, List.mem_filter,
        List.any_eq_true, decide_eq_true_eq]
      constructor
      · rintro ⟨e, ⟨hec, hein⟩, rfl⟩
        exact ⟨hein, e, hec, rfl⟩
      · rintro ⟨hain, e, hec, hea⟩
        refine ⟨e, ⟨hec, ?_⟩, hea⟩
        rw [hea]
        exact hain
  refine (List.Perm.append hperm1 (List.Perm.refl (missingOf cache addresses))).trans ?_
  exact List.filter_append_perm _ addresses

theorem find?_eq_self_of_mem {α : Type} [DecidableEq α] {l : List α} {a : α}
    (h : a ∈ l) : l.find? (fun x => decide (x = a)) = some a := by
  induction l with
  | nil => cases h
  | cons b l ih =>
    by_cases hb : b = a
    · simp [List.find?, hb]
    · rcases List.mem_cons.mp h with rfl | hmem
      · exact absurd rfl hb
      · simp [List.find?, hb, ih hmem]

theorem address_mem_fetchRows {e : GeoEntry} {b : String} {r : FetchResult}
    (h : e ∈ fetchRows b r) : e.address = b := by
  cases r with
  | found la lo =>
    rw [fetchRows] at h
    simp only [List.mem_singleton] at h
    rw [h]
  | notFound =>
    rw [fetchRows] at h
    simp only [List.mem_singleton] at h
    rw [h]
  | fetchError => cases h

/-!
## Claim C5
-/

/-- C5, counterexample: the two inputs differ only in letter case, so they
normalize identically, yet the batch resolver performs one external fetch and
writes one cache row for each of them — nothing in get_coordinates_batch
calls normalize. -/
theorem claim5_no_shared_fetch_cx :
    normalize (some ("A")) = normalize (some ("a"))
      ∧ (get_coordinates_batch (fun _ => FetchResult.notFound) []
          ["A", "a"]).fetch_calls = ["A", "a"]
      ∧ (get_coordinates_batch (fun _ => FetchResult.notFound) []
          ["A", "a"]).new_geo_addresses.length = 2 :=
  ⟨by decide, by decide, by decide⟩

/-- C5, amended: the batch resolver keys its result by the original input
address strings, one entry per input, but performs no normalization at all:
it issues one external fetch for exactly those inputs that match no cache row
by literal string comparison. -/
theorem claim5_original_keys_no_normalization (fetch : String → FetchResult)
    (cache : List GeoEntry) (addresses : List String)
    (hnd : addresses.Nodup) (hc : (cache.map GeoEntry.address).Nodup) :
    ((get_coordinates_batch fetch cache addresses).coordinates_map.map
        Prod.fst).Perm addresses
      ∧ (get_coordinates_batch fetch cache addresses).fetch_calls
          = addresses.filter
              (fun a => !(cache.any (fun e => decide (e.address = a)))) :=
  ⟨batch_keys_perm fetch cache addresses hnd hc,
    batch_calls_eq fetch cache addresses hnd hc⟩

theorem claim5_original_keys_no_normalization_witness :
    (["A", "a"] : List String).Nodup
      ∧ (((get_coordinates_batch (fun _ => FetchResult.notFound) []
            ["A", "a"]).coordinates_map.map Prod.fst).Perm ["A", "a"]
          ∧ (get_coordinates_batch (fun _ => FetchResult.notFound) []
              ["A", "a"]).fetch_calls
            = (["A", "a"] : List String).filter
                (fun a => !(([] : List GeoEntry).any
                  (fun e => decide (e.address = a))))) :=
  ⟨by decide,
    claim5_original_keys_no_normalization (fun _ => FetchResult.notFound) []
      ["A", "a"] (by decide) (by decide)⟩

/-!
## Claim C6
-/

/-- C6, counterexample: an empty address that is not cached triggers exactly
one external network call, against the claimed zero. -/
theorem claim6_empty_address_network_cx :
    (get_coordinates_batch (fun _ => FetchResult.notFound) [] [""]).fetch_calls
      = [""] := by
  decide

/-- C6, amended: the batch resolver is a total function that maps the empty
input set to the empty mapping with no fetches and no writes, while an
uncached empty or whitespace-only address is fetched like any other address
(one network call) and resolves to absent when the provider finds nothing. -/
theorem claim6_empty_batch_and_empty_address :
    (∀ (fetch : String → FetchResult) (cache : List GeoEntry),
        get_coordinates_batch fetch cache [] = ⟨[], [], []⟩)
      ∧ get_coordinates_batch (fun _ => FetchResult.notFound) [] [""]
          = ⟨[("", none)], [⟨"", none, none⟩], [""]⟩
      ∧ get_coordinates_batch (fun _ => FetchResult.notFound) [] [" "]
          = ⟨[(" ", none)], [⟨" ", none, none⟩], [" "]⟩ :=
  ⟨fun fetch cache => rfl, by decide, by decide⟩

/-!
## Claim C7
-/

/-- C7: when the external lookup of an uncached address of the batch raises
the transport or HTTP error (the caught FetchCoordinatesError), the batch
swallows it, maps that address to absent, and still returns one map entry per
input address, so the failure aborts nothing and propagates nowhere. -/
theorem claim7_transport_error_swallowed (fetch : String → FetchResult)
    (cache : List GeoEntry) (addresses : List String) (a : String)
    (hnd : addresses.Nodup) (hc : (cache.map GeoEntry.address).Nodup)
    (ha : a ∈ addresses) (hmiss : ∀ e ∈ cache, e.address ≠ a)
    (hf : fetch a = FetchResult.fetchError) :
    dictGet (get_coordinates_batch fetch cache addresses).coordinates_map a
        = some none
      ∧ ((get_coordinates_batch fetch cache addresses).coordinates_map.map
          Prod.fst).Perm addresses := by
  refine ⟨?_, batch_keys_perm fetch cache addresses hnd hc⟩
  rw [batch_map_eq fetch cache addresses hnd hc, dictGet_append]
  have h1 : dictGet ((cache.filter
      (fun e => decide (e.address ∈ addresses))).map
      (fun e => (e.address, entryCoords e))) a = none := by
    rw [dictGet_map_pair GeoEntry.address entryCoords]
    have hfind : (cache.filter
        (fun e => decide (e.address ∈ addresses))).find?
        (fun e => decide (e.address = a)) = none := by
      rw [List.find?_eq_none]
      intro e he
      simp only [decide_eq_true_eq]
      exact hmiss e (List.mem_filter.mp he).1
    rw [hfind]
    rfl
  have hamiss : a ∈ missingOf cache addresses := by
    refine List.mem_filter.mpr ⟨ha, ?_⟩
    simp only [Bool.not_eq_eq_eq_not, Bool.not_true, ← Bool.not_eq_true,
      List.any_eq_true, not_exists]
    simp only [decide_eq_true_eq, not_and]
    exact fun e he => hmiss e he
  have h2 : dictGet ((missingOf cache addresses).map
      (fun b => (b, fetchVal (fetch b)))) a = some none := by
    rw [dictGet_map_pair (fun b => b) (fun b => fetchVal (fetch b)),
      find?_eq_self_of_mem hamiss]
    simp [hf, fetchVal]
  rw [h1, h2]
  rfl

/-- Concrete cache and fetch oracle for the C7 witness: address u is cached
with coordinates, address b is uncached and its fetch raises, address c is
uncached and resolves. -/
def fetchW7 : String → FetchResult :=
  fun a => if a = "b" then FetchResult.fetchError else FetchResult.found 5 6

theorem claim7_transport_error_swallowed_witness :
    (["u", "b", "c"] : List String).Nodup
      ∧ fetchW7 ("b") = FetchResult.fetchError
      ∧ (dictGet (get_coordinates_batch fetchW7 [⟨"u", some 1, some 2⟩]
            ["u", "b", "c"]).coordinates_map ("b") = some none
          ∧ ((get_coordinates_batch fetchW7 [⟨"u", some 1, some 2⟩]
              ["u", "b", "c"]).coordinates_map.map Prod.fst).Perm
            ["u", "b", "c"]) :=
  ⟨by decide, by decide,
    claim7_transport_error_swallowed fetchW7 [⟨"u", some 1, some 2⟩]
      ["u", "b", "c"] "b" (by decide) (by decide) (by decide) (by decide)
      (by decide)⟩

/-!
## Claim C8
-/

/-- C8, counterexample: the address x is cached as unresolvable (both
coordinate fields absent); although the fetch oracle would succeed, the batch
performs no network call, writes nothing back, and returns absent for x — the
unresolvable cache row is a hit, not a miss. -/
theorem claim8_cached_unresolvable_not_retried_cx :
    get_coordinates_batch (fun _ => FetchResult.found 1 2)
        [⟨"x", none, none⟩] ["x"]
      = ⟨[("x", none)], [], []⟩ := by
  decide

/-- C8, amended: an address whose cache row is stored as unresolvable is
treated as a cache hit: the batch issues no new external lookup for it and
returns absent. Only an address with no cache row at all is fetched, and the
result is written back on success and on a not-found answer, but a transport
or HTTP failure writes nothing back. -/
theorem claim8_cache_hit_and_writeback (fetch : String → FetchResult)
    (cache : List GeoEntry) (addresses : List String) (a : String)
    (hnd : addresses.Nodup) (hc : (cache.map GeoEntry.address).Nodup)
    (ha : a ∈ addresses) :
    ((⟨a, none, none⟩ : GeoEntry) ∈ cache →
        a ∉ (get_coordinates_batch fetch cache addresses).fetch_calls
          ∧ dictGet (get_coordinates_batch fetch cache
              addresses).coordinates_map a = some none)
      ∧ ((∀ e ∈ cache, e.address ≠ a) →
          a ∈ (get_coordinates_batch fetch cache addresses).fetch_calls
            ∧ (∀ la lo, fetch a = FetchResult.found la lo →
                (⟨a, some la, some lo⟩ : GeoEntry)
                  ∈ (get_coordinates_batch fetch cache
                      addresses).new_geo_addresses)
            ∧ (fetch a = FetchResult.notFound →
                (⟨a, none, none⟩ : GeoEntry)
                  ∈ (get_coordinates_batch fetch cache
                      addresses).new_geo_addresses)
            ∧ (fetch a = FetchResult.fetchError →
                ∀ e ∈ (get_coordinates_batch fetch cache
                    addresses).new_geo_addresses, e.address ≠ a)) := by
  constructor
  · intro hrow
    have hnotmiss : a ∉ missingOf cache addresses := by
      intro hmem
      have hb := (List.mem_filter.mp hmem).2
      rw [Bool.not_eq_eq_eq_not, Bool.not_true, ← Bool.not_eq_true] at hb
      apply hb
      rw [List.any_eq_true]
      exact ⟨⟨a, none, none⟩, hrow, by simp⟩
    constructor
    · rw [batch_calls_eq fetch cache addresses hnd hc]
      exact hnotmiss
    · rw [batch_map_eq fetch cache addresses hnd hc, dictGet_append,
        dictGet_map_pair GeoEntry.address entryCoords]
      have hfmem : (⟨a, none, none⟩ : GeoEntry)
          ∈ cache.filter (fun e => decide (e.address ∈ addresses)) :=
        List.mem_filter.mpr ⟨hrow, by simp [ha]⟩
      have hsome : ((cache.filter
          (fun e => decide (e.address ∈ addresses))).find?
          (fun e => decide (e.address = a))).isSome := by
        rw [List.find?_isSome]
        exact ⟨⟨a, none, none⟩, hfmem, by simp⟩
      rcases Option.isSome_iff_exists.mp hsome with ⟨e1, he1⟩
      have he1mem : e1 ∈ cache :=
        (List.mem_filter.mp (List.mem_of_find?_eq_some he1)).1
      have he1addr : e1.address = a := by
        have := List.find?_some he1
        simpa using this
      have he1eq : e1 = ⟨a, none, none⟩ :=
        List.inj_on_of_nodup_map hc he1mem hrow (by simp [he1addr])
      rw [he1, he1eq]
      rfl
  · intro hnone
    have hamiss : a ∈ missingOf cache addresses := by
      refine List.mem_filter.mpr ⟨ha, ?_⟩
      simp only [Bool.not_eq_eq_eq_not, Bool.not_true, ← Bool.not_eq_true,
        List.any_eq_true, not_exists]
      simp only [decide_eq_true_eq, not_and]
      exact fun e he => hnone e he
    refine ⟨?_, ?_, ?_, ?_⟩
    · rw [batch_calls_eq fetch cache addresses hnd hc]
      exact hamiss
    · intro la lo hfa
      rw [batch_rows_eq fetch cache addresses hnd hc]
      rw [List.mem_flatMap]
      exact ⟨a, hamiss, by rw [hfa]; simp [fetchRows]⟩
    · intro hfa
      rw [batch_rows_eq fetch cache addresses hnd hc]
      rw [List.mem_flatMap]
      exact ⟨a, hamiss, by rw [hfa]; simp [fetchRows]⟩
    · intro hfa e he heq
      rw [batch_rows_eq fetch cache addresses hnd hc] at he
      rcases List.mem_flatMap.mp he with ⟨b, hb, hemem⟩
      have hba : b = a := by
        rw [← address_mem_fetchRows hemem]
        exact heq
      subst hba
      rw [hfa] at hemem
      cases hemem

/-- Concrete cache for the C8 witness: address x cached as unresolvable,
address y uncached. -/
def cacheW8 : List GeoEntry :=
  [⟨"x", none, none⟩]

theorem claim8_cache_hit_and_writeback_witness :
    (["x", "y"] : List String).Nodup
      ∧ ((⟨"x", none, none⟩ : GeoEntry) ∈ cacheW8 →
          "x" ∉ (get_coordinates_batch (fun _ => FetchResult.found 1 2)
              cacheW8 ["x", "y"]).fetch_calls
            ∧ dictGet (get_coordinates_batch (fun _ => FetchResult.found 1 2)
                cacheW8 ["x", "y"]).coordinates_map ("x") = some none) :=
  ⟨by decide,
    (claim8_cache_hit_and_writeback (fun _ => FetchResult.found 1 2) cacheW8
      ["x", "y"] "x" (by decide) (by decide) (by decide)).1⟩

end StarBurger
